import Mathlib

/-!
Shallow embedding of `jackc/csvtopg` (files `csvtopg/csvtopg.go` and
`cmd/root.go`): the column type-inference pass, the streaming copy-from
row adapter, and identifier normalization.

The pgtype transcoders (`pgtype.Int4`, `pgtype.Int8`, shopspring
`Numeric`, `pgtype.Date`, `pgtype.Bool`, `pgtype.Text`) live in an
external library; the engine only observes whether `DecodeText` succeeds
or fails on a given raw field, so decoding success on a non-nil buffer is
a parameter `dec : Transcoder → String → Bool` of the development.  The
one behavior of the library the engine relies on structurally — every
pgtype decoder accepts a nil buffer as SQL NULL — is modelled in
`decodeTextOk`.

The Go `read func() ([]string, error)` closures are modelled as a list of
`ReadResult`s consumed front-to-back; an exhausted list keeps yielding
`io.EOF`, matching `encoding/csv`.  A Go index-out-of-range panic is
modelled as `Option.none` (for the raw loops) or as the distinguished
`AnalyzeError.indexOutOfRange`.
-/

set_option maxHeartbeats 1000000

namespace Csvtopg

/-- The transcoder implementations tried by csvtopg, identified by tag.
`csvtopg.go` lines 43-49 lists the candidate order int4, int8, numeric,
date, bool; `text` is the fallback used in `result` (line 74). -/
inductive Transcoder where
  | int4
  | int8
  | numeric
  | date
  | boolean
  | text
  deriving DecidableEq

/-- `Column` from `csvtopg.go` lines 22-27. -/
structure Column where
  Name : String
  DataType : String
  NotNull : Bool
  transcoder : Transcoder
  deriving DecidableEq

/-- `columnAnalyzer` from `csvtopg.go` lines 34-39.  The opaque
`ci *pgtype.ConnInfo` field is dropped: it is only threaded through to
the external decoders.  The Go `int64` counters are modelled as `Nat`:
they are only ever incremented from zero and compared with zero. -/
structure ColumnAnalyzer where
  acceptableTypes : List Transcoder
  nullsFound : Nat
  nonNullsFound : Nat
  deriving DecidableEq

/-- The initial candidate list of `newColumnAnalyzer` (lines 43-49). -/
def initialAcceptableTypes : List Transcoder :=
  [Transcoder.int4, Transcoder.int8, Transcoder.numeric, Transcoder.date,
   Transcoder.boolean]

/-- `newColumnAnalyzer` (lines 41-51). -/
def newColumnAnalyzer : ColumnAnalyzer :=
  { acceptableTypes := initialAcceptableTypes, nullsFound := 0, nonNullsFound := 0 }

/-- `columnAnalyzer.analyzeValue` (lines 53-70): an empty string only bumps
the null counter; a non-empty string bumps the non-null counter and keeps
exactly the candidates whose `DecodeText` succeeds on it. -/
def analyzeValue (dec : Transcoder → String → Bool) (ca : ColumnAnalyzer)
    (s : String) : ColumnAnalyzer :=
  if s = "" then
    { ca with nullsFound := ca.nullsFound + 1 }
  else
    { ca with
      nonNullsFound := ca.nonNullsFound + 1,
      acceptableTypes := ca.acceptableTypes.filter (fun t => dec t s) }

/-- The type-switch of `columnAnalyzer.result` (lines 79-92). -/
def dataTypeName : Transcoder → String
  | Transcoder.int4 => "integer"
  | Transcoder.int8 => "bigint"
  | Transcoder.numeric => "numeric"
  | Transcoder.date => "date"
  | Transcoder.boolean => "bool"
  | Transcoder.text => "text"

/-- `columnAnalyzer.result` (lines 72-95), returning
`(dataType, transcoder, notNull)`.  `headD` with default `text` stands for
the Go `ca.acceptableTypes[0]`, reached only under the guard that the list
is non-empty. -/
def ColumnAnalyzer.result (ca : ColumnAnalyzer) : String × Transcoder × Bool :=
  let t : Transcoder :=
    if ca.acceptableTypes.isEmpty || ca.nonNullsFound == 0 then Transcoder.text
    else ca.acceptableTypes.headD Transcoder.text
  (dataTypeName t, t, ca.nullsFound == 0)

/-- Word characters of Go's regexp `\W`: RE2's `\w` is `[0-9A-Za-z_]`. -/
def isWordChar (c : Char) : Bool :=
  c.isAlphanum || c == '_'

/-- One left-to-right scan implementing
`normalizeIdentifierRegexp.ReplaceAllLiteralString(s, "_")` for the
pattern `\W+` (line 222): each maximal run of non-word characters becomes
a single underscore.  The flag records whether the scan is inside such a
run. -/
def collapseAux : Bool → List Char → List Char
  | _, [] => []
  | inRun, c :: cs =>
      if isWordChar c then c :: collapseAux false cs
      else if inRun then collapseAux true cs
      else '_' :: collapseAux true cs

/-- `NormalizeIdentifier` (lines 221-225): replace `\W+` runs with `_`,
then lower-case.  After the replacement only `[0-9A-Za-z_]` remains, on
which Go's Unicode `strings.ToLower` agrees with ASCII `Char.toLower`. -/
def NormalizeIdentifier (s : String) : String :=
  ((collapseAux false s.toList).map Char.toLower).asString

/-- `computeTableName` from `cmd/root.go` lines 156-166 (v5 variant lines
288-298, identical): an explicit `-t` table name wins; the stdin marker
`"-"` maps to `"stdin"`; otherwise the file name is normalized. -/
def computeTableName (tablename filename : String) : String :=
  if tablename != "" then tablename
  else if filename == "-" then "stdin"
  else NormalizeIdentifier filename

/-- The errors a modelled `read` call can return: `io.EOF` or any other
read error, identified by its message. -/
inductive ReadErr where
  | eof
  | other (msg : String)
  deriving DecidableEq

/-- One result of calling the Go `read func() ([]string, error)`. -/
inductive ReadResult where
  | row (fields : List String)
  | err (e : ReadErr)
  deriving DecidableEq

/-- A row source is a list of read results; reading past the end keeps
returning `io.EOF`, as `encoding/csv` does at end of input. -/
def readOne : List ReadResult → ReadResult × List ReadResult
  | [] => (ReadResult.err ReadErr.eof, [])
  | r :: rest => (r, rest)

/-- Failure modes of `AnalyzeColumns`: the wrapped
`fmt.Errorf("line %d: %w", lineNumber, err)` (lines 101 and 119), or the
runtime panic of `columnAnalyzers[i]` when a data row is longer than the
header (line 123). -/
inductive AnalyzeError where
  | lineError (lineNumber : Nat) (underlying : ReadErr)
  | indexOutOfRange
  deriving DecidableEq

/-- The inner loop body of `AnalyzeColumns` (lines 122-124):
`for i := range row { columnAnalyzers[i].analyzeValue(row[i]) }`.
Iteration is over the ROW, so a row longer than the analyzer slice indexes
out of range (`none`); a shorter row leaves trailing analyzers untouched. -/
def analyzeRow (dec : Transcoder → String → Bool) :
    List ColumnAnalyzer → List String → Option (List ColumnAnalyzer)
  | cas, [] => some cas
  | [], _ :: _ => none
  | ca :: cas, s :: rest =>
      (analyzeRow dec cas rest).map (fun cs => analyzeValue dec ca s :: cs)

/-- The read loop of `AnalyzeColumns` (lines 112-125).  The `lineNumber`
argument is the line of the previous read; the loop increments it before
reading (line 113), so the read inside this call is at `lineNumber + 1`. -/
def analyzeLoop (dec : Transcoder → String → Bool) (lineNumber : Nat)
    (cas : List ColumnAnalyzer) :
    List ReadResult → Except AnalyzeError (List ColumnAnalyzer)
  | [] => Except.ok cas
  | ReadResult.err ReadErr.eof :: _ => Except.ok cas
  | ReadResult.err (ReadErr.other m) :: _ =>
      Except.error (AnalyzeError.lineError (lineNumber + 1) (ReadErr.other m))
  | ReadResult.row r :: rest =>
      match analyzeRow dec cas r with
      | none => Except.error AnalyzeError.indexOutOfRange
      | some cas2 => analyzeLoop dec (lineNumber + 1) cas2 rest

/-- Assembly of the final `[]Column` (lines 103-110 and 127-129): names come
from the normalized header, the remaining fields from each analyzer's
`result`. -/
def buildColumns (names : List String) (cas : List ColumnAnalyzer) : List Column :=
  List.zipWith
    (fun name ca =>
      { Name := name, DataType := ca.result.1, NotNull := ca.result.2.2,
        transcoder := ca.result.2.1 })
    names cas

/-- `AnalyzeColumns` (lines 97-132): read the header at line 1 (any error,
`io.EOF` included, is wrapped and returned), build one fresh analyzer per
header field, run the read loop, and assemble the columns. -/
def AnalyzeColumns (dec : Transcoder → String → Bool)
    (source : List ReadResult) : Except AnalyzeError (List Column) :=
  match readOne source with
  | (ReadResult.err e, _) => Except.error (AnalyzeError.lineError 1 e)
  | (ReadResult.row headerRow, rest) =>
      match analyzeLoop dec 1 (headerRow.map (fun _ => newColumnAnalyzer)) rest with
      | Except.error e => Except.error e
      | Except.ok cas =>
          Except.ok (buildColumns (headerRow.map NormalizeIdentifier) cas)

/-- The errors that can be recorded in `copyFromSource.err`: a read
failure from `readFunc` (line 165), or a `DecodeText` failure (line 183),
identified by the transcoder and the buffer it rejected. -/
inductive CopyErr where
  | readErr (e : ReadErr)
  | decodeErr (t : Transcoder) (buf : Option String)
  deriving DecidableEq

/-- `copyFromSource` (lines 152-159).  The `readFunc` closure is modelled
by the remaining `source` list held in the state; the opaque `ci` field is
dropped.  `values` is the slice of transcoders preset by `CopyRows`
(line 213) and returned unchanged by `Values`. -/
structure CopyFromSource where
  columns : List Column
  source : List ReadResult
  rawRow : List String
  values : List Transcoder
  err : Option CopyErr
  deriving DecidableEq

/-- `copyFromSource.Next` (lines 161-173): a clean `io.EOF` returns `false`
without recording anything; any other read error is recorded in `err` and
`false` is returned; a row is buffered in `rawRow` and `true` returned. -/
def CopyFromSource.Next (cfs : CopyFromSource) : Bool × CopyFromSource :=
  match readOne cfs.source with
  | (ReadResult.err ReadErr.eof, rest) => (false, { cfs with source := rest })
  | (ReadResult.err e, rest) =>
      (false, { cfs with source := rest, err := some (CopyErr.readErr e) })
  | (ReadResult.row r, rest) => (true, { cfs with source := rest, rawRow := r })

/-- The `var buf []byte; if len(s) > 0 { buf = []byte(s) }` step of
`Values` (lines 177-180): an empty field becomes a nil buffer (SQL NULL). -/
def strToBuf (s : String) : Option String :=
  if s.length > 0 then some s else none

/-- Success of the external `transcoder.DecodeText(ci, buf)` call: every
pgtype decoder accepts a nil buffer as NULL; on a non-nil buffer the
outcome is the abstract decoder parameter `dec`. -/
def decodeTextOk (dec : Transcoder → String → Bool) (t : Transcoder) :
    Option String → Bool
  | none => true
  | some s => dec t s

/-- The decode loop of `copyFromSource.Values` (lines 176-186):
`for i, s := range cfs.rawRow` — iteration is over the RAW ROW, indexing
`cfs.columns[i]`.  `some none` means the loop completed, `some (some e)`
means the first failing field aborted it with error `e`, `none` models the
index-out-of-range panic when the row is longer than the column slice. -/
def decodeRow (dec : Transcoder → String → Bool) :
    List Column → List String → Option (Option CopyErr)
  | _, [] => some none
  | [], _ :: _ => none
  | c :: cols, s :: rest =>
      if decodeTextOk dec c.transcoder (strToBuf s) then decodeRow dec cols rest
      else some (some (CopyErr.decodeErr c.transcoder (strToBuf s)))

/-- Spec-side description of the decode loop, following the spec's words:
scanning the buffered row's fields in column order (each field paired with
its column), the error of the FIRST field whose decode fails, `none` when
every field decodes.  Compared against the loop `decodeRow` translated
from the source. -/
def firstFailure (dec : Transcoder → String → Bool) (cols : List Column)
    (row : List String) : Option CopyErr :=
  (row.zip cols).findSome? (fun p =>
    if decodeTextOk dec p.2.transcoder (strToBuf p.1) then none
    else some (CopyErr.decodeErr p.2.transcoder (strToBuf p.1)))

/-- `copyFromSource.Values` (lines 175-189): run the decode loop; on the
first failure record the error in `cfs.err` and return it; otherwise
return the preset `values` slice.  `none` models the panic on an
over-long row. -/
def CopyFromSource.Values (dec : Transcoder → String → Bool)
    (cfs : CopyFromSource) :
    Option (Except CopyErr (List Transcoder) × CopyFromSource) :=
  match decodeRow dec cfs.columns cfs.rawRow with
  | none => none
  | some none => some (Except.ok cfs.values, cfs)
  | some (some e) => some (Except.error e, { cfs with err := some e })

/-- `copyFromSource.Err` (lines 191-193). -/
def CopyFromSource.Err (cfs : CopyFromSource) : Option CopyErr :=
  cfs.err

/-- A decoder instantiation accepting every value; coincides with
`pgtype.Text.DecodeText`, which never fails, on text columns. -/
def decTrue : Transcoder → String → Bool := fun _ _ => true

/-- A decoder instantiation rejecting every non-null value. -/
def decFalse : Transcoder → String → Bool := fun _ _ => false

/-- A concrete resolved text column, as produced for a text-fallback
column. -/
def textColumn : Column :=
  { Name := "a", DataType := "text", NotNull := false, transcoder := Transcoder.text }

/-- A concrete adapter state whose buffered row has fewer fields than the
schema has columns. -/
def shortCfs : CopyFromSource :=
  { columns := [textColumn, textColumn], source := [], rawRow := ["x"],
    values := [Transcoder.text, Transcoder.text], err := none }

/-! ## Characterization of the inference fold -/

/-- After feeding any value stream, the surviving candidates are exactly the
initial candidates that decode every non-empty value fed, in order. -/
theorem foldl_acceptableTypes (dec : Transcoder → String → Bool) :
    ∀ (observed : List String) (ca : ColumnAnalyzer),
    (observed.foldl (analyzeValue dec) ca).acceptableTypes
      = ca.acceptableTypes.filter
          (fun t => (observed.filter (fun s => s != "")).all (dec t))
  | [], ca => by simp
  | s :: rest, ca => by
    by_cases h : s = ""
    · subst h
      simp only [List.foldl_cons, foldl_acceptableTypes dec rest, analyzeValue,
        if_pos rfl]
      simp
    · simp only [List.foldl_cons, foldl_acceptableTypes dec rest, analyzeValue,
        if_neg h]
      rw [List.filter_filter]
      have hs : (s != "") = true := by simp [h]
      simp [List.filter_cons, hs, Bool.and_comm]

/-- The null counter counts exactly the empty strings fed. -/
theorem foldl_nullsFound (dec : Transcoder → String → Bool) :
    ∀ (observed : List String) (ca : ColumnAnalyzer),
    (observed.foldl (analyzeValue dec) ca).nullsFound
      = ca.nullsFound + observed.countP (fun s => s == "")
  | [], ca => by simp
  | s :: rest, ca => by
    by_cases h : s = ""
    · subst h
      simp [List.foldl_cons, foldl_nullsFound dec rest, analyzeValue,
        List.countP_cons]
      omega
    · simp [List.foldl_cons, foldl_nullsFound dec rest, analyzeValue, h,
        List.countP_cons]

/-- The non-null counter counts exactly the non-empty strings fed. -/
theorem foldl_nonNullsFound (dec : Transcoder → String → Bool) :
    ∀ (observed : List String) (ca : ColumnAnalyzer),
    (observed.foldl (analyzeValue dec) ca).nonNullsFound
      = ca.nonNullsFound + (observed.filter (fun s => s != "")).length
  | [], ca => by simp
  | s :: rest, ca => by
    by_cases h : s = ""
    · subst h
      simp [List.foldl_cons, foldl_nonNullsFound dec rest, analyzeValue,
        List.filter_cons]
    · simp [List.foldl_cons, foldl_nonNullsFound dec rest, analyzeValue, h,
        List.filter_cons]
      omega

/-- The head of a filtered list is the first element satisfying the
predicate. -/
theorem headD_filter_eq_find? (p : α → Bool) (d : α) :
    ∀ l : List α, (l.filter p).headD d = (l.find? p).getD d
  | [] => rfl
  | a :: l => by
    by_cases h : p a
    · simp [List.filter_cons, h, List.find?_cons_of_pos _ h]
    · simp [List.filter_cons, h, List.find?_cons_of_neg _ h,
        headD_filter_eq_find? p d l]

/-- The transcoder component of `result` (lines 73-77). -/
theorem result_transcoder (ca : ColumnAnalyzer) :
    ca.result.2.1
      = if ca.acceptableTypes.isEmpty || ca.nonNullsFound == 0 then Transcoder.text
        else ca.acceptableTypes.headD Transcoder.text := rfl

/-- The NOT NULL component of `result` (line 94). -/
theorem result_notNull (ca : ColumnAnalyzer) :
    ca.result.2.2 = (ca.nullsFound == 0) := rfl

/-- C1: at the end of the inference pass the surviving candidate set is
exactly the set of initial candidates that decoded every non-empty
observed value, and the column resolves to the text fallback when that set
is empty or no non-empty value was observed, and otherwise to the first
candidate in the fixed order integer, bigint, numeric, date, bool that
decoded every non-empty value — never skipping a candidate that would
still succeed on all values. -/
theorem C1 (dec : Transcoder → String → Bool) (observed : List String) :
    ((observed.foldl (analyzeValue dec) newColumnAnalyzer).acceptableTypes
        = initialAcceptableTypes.filter
            (fun t => (observed.filter (fun s => s != "")).all (dec t)))
    ∧ ((observed.foldl (analyzeValue dec) newColumnAnalyzer).result.2.1
        = if (observed.filter (fun s => s != "")).isEmpty then Transcoder.text
          else (initialAcceptableTypes.find?
              (fun t => (observed.filter (fun s => s != "")).all (dec t))).getD
            Transcoder.text) := by
  have hA := foldl_acceptableTypes dec observed newColumnAnalyzer
  have hN := foldl_nonNullsFound dec observed newColumnAnalyzer
  refine ⟨hA, ?_⟩
  rw [result_transcoder, hA, hN]
  simp only [newColumnAnalyzer]
  by_cases hlen : (observed.filter (fun s => s != "")).length = 0
  · have hniE : (observed.filter (fun s => s != "")).isEmpty = true := by
      cases hc : observed.filter (fun s => s != "") with
      | nil => rfl
      | cons a l => rw [hc] at hlen; simp at hlen
    simp [hlen, hniE]
  · have hniE : (observed.filter (fun s => s != "")).isEmpty = false := by
      cases hc : observed.filter (fun s => s != "") with
      | nil => rw [hc] at hlen; simp at hlen
      | cons a l => rfl
    have hb : ((0 + (observed.filter (fun s => s != "")).length) == 0) = false := by
      simp [hlen]
    simp only [hniE, hb, Bool.or_false, Bool.false_eq_true, if_false]
    rw [headD_filter_eq_find?]
    cases he :
        (initialAcceptableTypes.filter
          (fun t => (observed.filter (fun s => s != "")).all (dec t))).isEmpty
    · simp only [Bool.false_eq_true, if_false]
    · simp only [if_true]
      rw [← headD_filter_eq_find?, List.isEmpty_iff.mp he]
      rfl

/-- C4: narrowing is monotonic — processing one value, or any stream of
values, only shrinks the surviving candidate set (an eliminated candidate
is never reinstated) — and the inference pass is a pure function of the
source, so a second pass over the identical stream yields the identical
schema. -/
theorem C4 (dec : Transcoder → String → Bool) (ca : ColumnAnalyzer)
    (s : String) (observed : List String) (source : List ReadResult) :
    (analyzeValue dec ca s).acceptableTypes ⊆ ca.acceptableTypes
    ∧ (observed.foldl (analyzeValue dec) ca).acceptableTypes ⊆ ca.acceptableTypes
    ∧ AnalyzeColumns dec source = AnalyzeColumns dec source := by
  refine ⟨?_, ?_, rfl⟩
  · by_cases h : s = ""
    · simp [analyzeValue, h]
    · simp only [analyzeValue, if_neg h]
      exact List.filter_subset' _
  · rw [foldl_acceptableTypes]
    exact List.filter_subset' _

/-- The NOT NULL flag is set exactly when no empty string was fed. -/
theorem countP_empty_eq_all :
    ∀ observed : List String,
    ((List.countP (fun s => s == "") observed) == 0)
      = observed.all (fun s => s != "")
  | [] => rfl
  | s :: rest => by
    by_cases h : s = ""
    · subst h
      simp [List.countP_cons, List.all_cons]
    · simp [List.countP_cons, List.all_cons, h, countP_empty_eq_all rest]

/-- C5: an empty observed value only increments the null counter — the
surviving candidate set (and the non-null counter) is left unchanged — and
the finalized column is NOT NULL exactly when zero empty values were
observed during the pass. -/
theorem C5 (dec : Transcoder → String → Bool) (ca : ColumnAnalyzer)
    (observed : List String) :
    analyzeValue dec ca "" = { ca with nullsFound := ca.nullsFound + 1 }
    ∧ (analyzeValue dec ca "").acceptableTypes = ca.acceptableTypes
    ∧ ((observed.foldl (analyzeValue dec) newColumnAnalyzer).result.2.2
        = observed.all (fun s => s != "")) := by
  refine ⟨by simp [analyzeValue], by simp [analyzeValue], ?_⟩
  rw [result_notNull, foldl_nullsFound dec observed newColumnAnalyzer]
  simp only [newColumnAnalyzer]
  rw [Nat.zero_add, countP_empty_eq_all]

/-! ## Header-only analysis and the row loop -/

/-- Zipping two maps over the same list is a single map. -/
theorem zipWith_map_map (f : β → γ → δ) (g : α → β) (k : α → γ) :
    ∀ l : List α, List.zipWith f (l.map g) (l.map k) = l.map (fun x => f (g x) (k x))
  | [] => rfl
  | a :: l => by simp [zipWith_map_map f g k l]

/-- C3 (amended): a header-only input analyzes successfully and every
column is the text fallback — but, the null counter being zero, every
column is marked NOT NULL (`NotNull = true`), not nullable. -/
theorem C3_amended (dec : Transcoder → String → Bool) (header : List String) :
    AnalyzeColumns dec [ReadResult.row header]
      = Except.ok (header.map (fun h =>
          { Name := NormalizeIdentifier h, DataType := "text", NotNull := true,
            transcoder := Transcoder.text })) := by
  simp only [AnalyzeColumns, readOne, analyzeLoop, buildColumns]
  rw [zipWith_map_map]
  rfl

/-- C3 counterexample: for the header-only input `["a"]` the analysis
succeeds and the single column is text — but its `NotNull` flag is `true`,
so "every column ... is nullable (NotNull is false)" fails. -/
theorem C3_counterexample :
    (AnalyzeColumns decTrue [ReadResult.row ["a"]]).toOption.map
        (fun cols => cols.map (fun c => (c.DataType, c.NotNull)))
      = some [("text", true)]
    ∧ ¬ ∀ c ∈ (AnalyzeColumns decTrue [ReadResult.row ["a"]]).toOption.getD [],
        c.NotNull = false := by
  refine ⟨rfl, ?_⟩
  decide

/-- C6: `Next` on a clean `io.EOF` returns `false` and records no error
(`Err` stays `none`); on any other read failure it returns `false` with
the error recorded and retrievable via `Err`; on a fetched row it returns
`true` with the row buffered in `rawRow`. -/
theorem C6 (cfs : CopyFromSource) (rest : List ReadResult) (r : List String)
    (m : String) :
    CopyFromSource.Next { cfs with source := ReadResult.err ReadErr.eof :: rest }
      = (false, { cfs with source := rest })
    ∧ CopyFromSource.Next { cfs with source := [] }
      = (false, { cfs with source := [] })
    ∧ CopyFromSource.Next { cfs with source := ReadResult.err (ReadErr.other m) :: rest }
      = (false, { cfs with
                  source := rest
                  err := some (CopyErr.readErr (ReadErr.other m)) })
    ∧ CopyFromSource.Next { cfs with source := ReadResult.row r :: rest }
      = (true, { cfs with source := rest, rawRow := r })
    ∧ CopyFromSource.Err
        ({ cfs with
           err := none
           source := ReadResult.err ReadErr.eof :: rest } : CopyFromSource).Next.2
      = none
    ∧ CopyFromSource.Err
        ({ cfs with
           source := ReadResult.err (ReadErr.other m) :: rest } : CopyFromSource).Next.2
      = some (CopyErr.readErr (ReadErr.other m)) :=
  ⟨rfl, rfl, rfl, rfl, rfl, rfl⟩

/-- The inference row loop succeeds exactly when the row has at most as
many fields as there are analyzers. -/
theorem analyzeRow_isSome (dec : Transcoder → String → Bool) :
    ∀ (cas : List ColumnAnalyzer) (row : List String),
    (analyzeRow dec cas row).isSome = decide (row.length ≤ cas.length)
  | cas, [] => by simp [analyzeRow]
  | [], s :: rest => by simp [analyzeRow]
  | ca :: cas, s :: rest => by
    simp [analyzeRow, analyzeRow_isSome dec cas rest, Nat.succ_le_succ_iff]

/-- A row that fits is processed, and processing preserves the number of
analyzers. -/
theorem analyzeRow_some_of_le (dec : Transcoder → String → Bool) :
    ∀ (cas : List ColumnAnalyzer) (row : List String),
    row.length ≤ cas.length →
    ∃ cas', analyzeRow dec cas row = some cas' ∧ cas'.length = cas.length
  | cas, [], _ => ⟨cas, by cases cas <;> rfl, rfl⟩
  | [], s :: rest, h => by simp at h
  | ca :: cas, s :: rest, h => by
    obtain ⟨cas', hc, hl⟩ :=
      analyzeRow_some_of_le dec cas rest (Nat.le_of_succ_le_succ h)
    exact ⟨analyzeValue dec ca s :: cas', by simp [analyzeRow, hc], by simp [hl]⟩

/-- Running the read loop over a block of fitting data rows advances the
line counter by the number of rows and preserves the analyzer count. -/
theorem analyzeLoop_append (dec : Transcoder → String → Bool) :
    ∀ (rows : List (List String)) (n : Nat) (cas : List ColumnAnalyzer)
      (suffix : List ReadResult),
    (∀ r ∈ rows, r.length ≤ cas.length) →
    ∃ cas', cas'.length = cas.length ∧
      analyzeLoop dec n cas (rows.map ReadResult.row ++ suffix)
        = analyzeLoop dec (n + rows.length) cas' suffix
  | [], n, cas, suffix, _ => ⟨cas, rfl, by simp⟩
  | r :: rows, n, cas, suffix, hr => by
    obtain ⟨cas2, hc2, hl2⟩ :=
      analyzeRow_some_of_le dec cas r (hr r (List.mem_cons_self r rows))
    obtain ⟨cas', hl', heq⟩ :=
      analyzeLoop_append dec rows (n + 1) cas2 suffix
        (fun x hx => hl2 ▸ hr x (List.mem_cons_of_mem r hx))
    refine ⟨cas', by rw [hl', hl2], ?_⟩
    simp only [List.map_cons, List.cons_append, List.append_eq, analyzeLoop, hc2]
    rw [heq]
    have : n + 1 + rows.length = n + (rows.length + 1) := by omega
    rw [this]
    rfl

/-- The assembled columns carry exactly the given names, in order. -/
theorem buildColumns_names :
    ∀ (names : List String) (cas : List ColumnAnalyzer),
    cas.length = names.length →
    (buildColumns names cas).map Column.Name = names
  | [], cas, _ => by simp [buildColumns]
  | n :: names, [], h => by simp at h
  | n :: names, ca :: cas, h => by
    have ih := buildColumns_names names cas (by simpa using h)
    simp only [buildColumns, List.zipWith_cons_cons, List.map_cons] at ih ⊢
    simp [ih]

/-- C8: `AnalyzeColumns` reads the header first — any header read failure
(including `io.EOF`) aborts with an error at line 1 wrapping the
underlying error; a later non-EOF read failure after `k` data rows aborts
with the 1-based line number `k + 2`; `io.EOF` ends the scan successfully,
and the resulting columns carry the normalized header field names. -/
theorem C8 (dec : Transcoder → String → Bool) (e : ReadErr) (m : String)
    (hdr : List String) (rows : List (List String)) (tail rest : List ReadResult)
    (hrows : ∀ r ∈ rows, r.length ≤ hdr.length) :
    AnalyzeColumns dec (ReadResult.err e :: rest)
      = Except.error (AnalyzeError.lineError 1 e)
    ∧ AnalyzeColumns dec
        (ReadResult.row hdr ::
          (rows.map ReadResult.row ++ ReadResult.err (ReadErr.other m) :: tail))
      = Except.error (AnalyzeError.lineError (rows.length + 2) (ReadErr.other m))
    ∧ ∃ cols,
        AnalyzeColumns dec
          (ReadResult.row hdr ::
            (rows.map ReadResult.row ++ ReadResult.err ReadErr.eof :: tail))
          = Except.ok cols
        ∧ cols.map Column.Name = hdr.map NormalizeIdentifier := by
  have hlen : (hdr.map (fun _ => newColumnAnalyzer)).length = hdr.length := by simp
  refine ⟨rfl, ?_, ?_⟩
  · obtain ⟨cas', hl', heq⟩ :=
      analyzeLoop_append dec rows 1 (hdr.map (fun _ => newColumnAnalyzer))
        (ReadResult.err (ReadErr.other m) :: tail) (by rw [hlen]; exact hrows)
    simp only [AnalyzeColumns, readOne, heq, analyzeLoop]
    have : 1 + rows.length + 1 = rows.length + 2 := by omega
    rw [this]
  · obtain ⟨cas', hl', heq⟩ :=
      analyzeLoop_append dec rows 1 (hdr.map (fun _ => newColumnAnalyzer))
        (ReadResult.err ReadErr.eof :: tail) (by rw [hlen]; exact hrows)
    refine ⟨buildColumns (hdr.map NormalizeIdentifier) cas', ?_, ?_⟩
    · simp only [AnalyzeColumns, readOne, heq, analyzeLoop]
    · exact buildColumns_names _ _ (by rw [hl', hlen]; simp)

/-- Witness for C8 at a concrete input: one header field, one fitting data
row, then a non-EOF read failure reported at line 3; and an EOF-terminated
variant succeeding with the normalized header name. -/
theorem C8_witness :
    AnalyzeColumns decTrue (ReadResult.err (ReadErr.other "boom") :: [])
      = Except.error (AnalyzeError.lineError 1 (ReadErr.other "boom"))
    ∧ AnalyzeColumns decTrue
        (ReadResult.row ["A b"] ::
          ([["1"]].map ReadResult.row ++ ReadResult.err (ReadErr.other "boom") :: []))
      = Except.error (AnalyzeError.lineError ([["1"]].length + 2) (ReadErr.other "boom"))
    ∧ ∃ cols,
        AnalyzeColumns decTrue
          (ReadResult.row ["A b"] ::
            ([["1"]].map ReadResult.row ++ ReadResult.err ReadErr.eof :: []))
          = Except.ok cols
        ∧ cols.map Column.Name = ["A b"].map NormalizeIdentifier :=
  C8 decTrue (ReadErr.other "boom") "boom" ["A b"] [["1"]] [] [] (by decide)

/-! ## The load-phase decode loop -/

/-- The decode loop of `Values`, fully characterized: it panics
(out-of-range) exactly when the row is longer than the column slice and no
earlier field failed to decode; otherwise it returns the first decode
failure, or completes cleanly when every field decodes. -/
theorem decodeRow_eq (dec : Transcoder → String → Bool) :
    ∀ (cols : List Column) (row : List String),
    decodeRow dec cols row
      = if cols.length < row.length ∧ firstFailure dec cols row = none then none
        else some (firstFailure dec cols row)
  | cols, [] => by
    cases cols <;> simp [decodeRow, firstFailure]
  | [], s :: rest => by
    simp [decodeRow, firstFailure]
  | c :: cols, s :: rest => by
    by_cases h : decodeTextOk dec c.transcoder (strToBuf s)
    · simp only [decodeRow, if_pos h, decodeRow_eq dec cols rest, firstFailure,
        List.zip_cons_cons, List.findSome?_cons, h, if_true, List.length_cons]
      by_cases hc : cols.length < rest.length ∧
          List.findSome? (fun p =>
            if decodeTextOk dec p.2.transcoder (strToBuf p.1) = true then none
            else some (CopyErr.decodeErr p.2.transcoder (strToBuf p.1)))
            (rest.zip cols) = none
      · rw [if_pos hc, if_pos ⟨Nat.succ_lt_succ hc.1, hc.2⟩]
      · rw [if_neg hc, if_neg ?_]
        intro ⟨h1, h2⟩
        exact hc ⟨Nat.lt_of_succ_lt_succ h1, h2⟩
    · simp [decodeRow, firstFailure, h, List.findSome?_cons]

/-- The decode loop inspects at most as many columns as the row has
fields: it consumes exactly `min(row length, column count)` positions. -/
theorem decodeRow_take (dec : Transcoder → String → Bool) :
    ∀ (cols : List Column) (row : List String),
    decodeRow dec cols row = decodeRow dec (cols.take row.length) row
  | cols, [] => by cases cols <;> rfl
  | [], s :: rest => by simp [decodeRow]
  | c :: cols, s :: rest => by
    simp only [List.length_cons, List.take_succ_cons, decodeRow]
    by_cases h : decodeTextOk dec c.transcoder (strToBuf s)
    · simp [h, decodeRow_take dec cols rest]
    · simp [h]

/-- C7: `Values` decodes the buffered row's fields in column order; an
empty field is passed as a nil buffer, which every transcoder decodes as
the absent (null) value; the first field whose decode fails aborts the
whole row, is recorded in `err` (where `Err` retrieves it) and returned;
if every field decodes, the preset values are returned with the state
untouched. -/
theorem C7 (dec : Transcoder → String → Bool) (cfs : CopyFromSource)
    (t : Transcoder) :
    decodeTextOk dec t none = true
    ∧ strToBuf "" = none
    ∧ CopyFromSource.Values dec cfs
        = if cfs.columns.length < cfs.rawRow.length
             ∧ firstFailure dec cfs.columns cfs.rawRow = none then none
          else
            match firstFailure dec cfs.columns cfs.rawRow with
            | none => some (Except.ok cfs.values, cfs)
            | some e => some (Except.error e, { cfs with err := some e }) := by
  refine ⟨rfl, rfl, ?_⟩
  simp only [CopyFromSource.Values]
  rw [decodeRow_eq]
  by_cases hc : cfs.columns.length < cfs.rawRow.length
      ∧ firstFailure dec cfs.columns cfs.rawRow = none
  · rw [if_pos hc, if_pos hc]
  · rw [if_neg hc, if_neg hc]
    cases firstFailure dec cfs.columns cfs.rawRow <;> rfl

/-- C2 counterexample: a buffered row with fewer raw fields (one) than the
schema has columns (two) does NOT surface a `DecodeError`: `Values`
silently succeeds, returning the preset values with no error recorded. -/
theorem C2_counterexample :
    shortCfs.rawRow.length < shortCfs.columns.length
    ∧ CopyFromSource.Values decTrue shortCfs
        = some (Except.ok shortCfs.values, shortCfs)
    ∧ shortCfs.err = none :=
  ⟨by decide, rfl, rfl⟩

/-- C2 (amended): `Values` decodes exactly `min(row length, N)` fields for
a schema of `N` columns — the loop ranges over the raw row, so a row with
fewer raw fields than columns whose present fields all decode silently
succeeds with no error rather than surfacing a `DecodeError`. -/
theorem C2_amended (dec : Transcoder → String → Bool) (cfs : CopyFromSource) :
    decodeRow dec cfs.columns cfs.rawRow
      = decodeRow dec (cfs.columns.take cfs.rawRow.length) cfs.rawRow
    ∧ (cfs.rawRow.length ≤ cfs.columns.length →
        firstFailure dec cfs.columns cfs.rawRow = none →
        CopyFromSource.Values dec cfs = some (Except.ok cfs.values, cfs)) := by
  refine ⟨decodeRow_take dec cfs.columns cfs.rawRow, fun h1 h2 => ?_⟩
  simp only [CopyFromSource.Values]
  rw [decodeRow_eq, if_neg, h2]
  intro ⟨hlt, _⟩
  exact Nat.lt_irrefl _ (Nat.lt_of_lt_of_le hlt h1)

/-- Witness for C2 (amended) at a concrete short row: one field against a
two-column schema, all decodes succeeding. -/
theorem C2_amended_witness :
    CopyFromSource.Values decTrue shortCfs
      = some (Except.ok shortCfs.values, shortCfs) :=
  (C2_amended decTrue shortCfs).2 (by decide) (by decide)

/-- C10 (amended): during inference the per-field loop indexes the
analyzer array out of range exactly when the data row is longer than the
header (so under the precondition `row length ≤ header length` it is
safe); during load the per-field loop indexes the column array out of
range exactly when the buffered row is longer than the schema AND no
earlier field's decode fails first. -/
theorem C10 (dec : Transcoder → String → Bool) (cas : List ColumnAnalyzer)
    (cols : List Column) (row : List String) :
    (analyzeRow dec cas row).isSome = decide (row.length ≤ cas.length)
    ∧ (decodeRow dec cols row).isNone
        = (decide (cols.length < row.length)
            && (firstFailure dec cols row).isNone) := by
  refine ⟨analyzeRow_isSome dec cas row, ?_⟩
  rw [decodeRow_eq]
  by_cases hc : cols.length < row.length ∧ firstFailure dec cols row = none
  · simp [hc.1, hc.2]
  · rw [if_neg hc]
    by_cases hlt : cols.length < row.length
    · cases hff : firstFailure dec cols row with
      | none => exact absurd ⟨hlt, hff⟩ hc
      | some e => simp [hlt]
    · simp [hlt]

/-- C10 counterexample: a buffered row with more fields (two) than the
schema has columns (one) whose first field fails to decode does NOT index
out of range — the loop aborts with the decode error first. -/
theorem C10_counterexample :
    ([textColumn].length < (["a", "b"] : List String).length)
    ∧ (decodeRow decFalse [textColumn] ["a", "b"]).isSome = true :=
  ⟨by decide, rfl⟩

/-! ## Identifier normalization -/

/-- Word characters pass through the collapse scan unchanged. -/
theorem collapse_word_run :
    ∀ (ws rest : List Char), (∀ c ∈ ws, isWordChar c = true) →
    collapseAux false (ws ++ rest) = ws ++ collapseAux false rest
  | [], rest, _ => rfl
  | w :: ws, rest, hw => by
    have h := hw w (List.mem_cons_self w ws)
    simp only [List.cons_append, collapseAux, h, if_true, List.append_eq]
    rw [collapse_word_run ws rest (fun c hc => hw c (List.mem_cons_of_mem w hc))]

/-- Inside a non-word run, further non-word characters produce nothing. -/
theorem collapse_skip_run :
    ∀ (ds rest : List Char), (∀ c ∈ ds, isWordChar c = false) →
    collapseAux true (ds ++ rest) = collapseAux true rest
  | [], rest, _ => rfl
  | d :: ds, rest, hd => by
    have h := hd d (List.mem_cons_self d ds)
    simp only [List.cons_append, collapseAux, h, Bool.false_eq_true, if_false,
      if_true]
    exact collapse_skip_run ds rest (fun c hc => hd c (List.mem_cons_of_mem d hc))

/-- At the end of the input or before a word character, being inside a
non-word run no longer matters. -/
theorem collapse_true_eq_false (rest : List Char)
    (h : rest = [] ∨ ∃ r rs, rest = r :: rs ∧ isWordChar r = true) :
    collapseAux true rest = collapseAux false rest := by
  rcases h with rfl | ⟨r, rs, rfl, hw⟩
  · rfl
  · simp [collapseAux, hw]

/-- C9: the normalization scan copies every word character and turns every
maximal run of non-word characters into a single underscore, and the
result is lower-cased (concrete sample); the same function is applied to
every header field to form column names, and to the file name to form the
default table name, with the stdin marker `"-"` mapping to the fixed
fallback `"stdin"` (and an explicitly given table name passed through). -/
theorem C9 (dec : Transcoder → String → Bool) (ws ds rest : List Char)
    (f tn : String) (hdr : List String)
    (hw : ∀ c ∈ ws, isWordChar c = true)
    (hd : ∀ c ∈ ds, isWordChar c = false)
    (hne : ds ≠ [])
    (hrest : rest = [] ∨ ∃ r rs, rest = r :: rs ∧ isWordChar r = true)
    (htn : tn ≠ "") :
    collapseAux false (ws ++ rest) = ws ++ collapseAux false rest
    ∧ collapseAux false (ds ++ rest) = '_' :: collapseAux false rest
    ∧ NormalizeIdentifier "A b--C_9" = "a_b_c_9"
    ∧ computeTableName "" "-" = "stdin"
    ∧ computeTableName "" f = (if f == "-" then "stdin" else NormalizeIdentifier f)
    ∧ computeTableName tn f = tn
    ∧ (AnalyzeColumns dec [ReadResult.row hdr]).toOption.map (List.map Column.Name)
        = some (hdr.map NormalizeIdentifier) := by
  refine ⟨collapse_word_run ws rest hw, ?_, rfl, rfl, rfl, ?_, ?_⟩
  · cases ds with
    | nil => exact absurd rfl hne
    | cons d ds' =>
      have h := hd d (List.mem_cons_self d ds')
      simp only [List.cons_append, collapseAux, h, Bool.false_eq_true, if_false,
        List.append_eq]
      rw [collapse_skip_run ds' rest (fun c hc => hd c (List.mem_cons_of_mem d hc)),
        collapse_true_eq_false rest hrest]
  · simp [computeTableName, htn]
  · exact congrArg some (buildColumns_names (hdr.map NormalizeIdentifier)
      (hdr.map fun _ => newColumnAnalyzer) (by simp))

/-- Witness for C9 at concrete inputs: word prefix `a`, non-word run
`" -"` followed by the word character `b`, a non-stdin file name, an
explicit table name, and a one-field header. -/
theorem C9_witness :
    collapseAux false (['a'] ++ ['b']) = ['a'] ++ collapseAux false ['b']
    ∧ collapseAux false ([' ', '-'] ++ ['b']) = '_' :: collapseAux false ['b']
    ∧ NormalizeIdentifier "A b--C_9" = "a_b_c_9"
    ∧ computeTableName "" "-" = "stdin"
    ∧ computeTableName "" "My File"
        = (if ("My File" : String) == "-" then "stdin"
           else NormalizeIdentifier "My File")
    ∧ computeTableName "tbl" "My File" = "tbl"
    ∧ (AnalyzeColumns decTrue [ReadResult.row ["A B"]]).toOption.map
        (List.map Column.Name)
        = some (["A B"].map NormalizeIdentifier) :=
  C9 decTrue ['a'] [' ', '-'] ['b'] "My File" "tbl" ["A B"]
    (by decide) (by decide) (by decide)
    (Or.inr ⟨'b', [], rfl, by decide⟩) (by decide)

end Csvtopg
